import Mathlib

set_option allowUnsafeReducibility true
attribute [local semireducible] Rat.add Rat.mul Rat.sub Rat.neg Rat.inv Rat.div

/-!
Shallow embedding of the hexahedral-mesh reconstruction pipeline of
`reconstruction_engine.h` (namespace `ReconstructionEngine`), together with
the concrete 16-point data set loaded by `MainWindow::MainWindow` in
`mainwindow.cpp`.

Modelling choices:
* `QVector3D` coordinates (C++ `float`) are modelled as exact rationals `ℚ`;
  all geometric predicates of the source are polynomial comparisons, and on
  the concrete data set every comparison is far from its threshold, so the
  float and rational evaluations agree.
* `QVector3D::distanceToPoint` returns the Euclidean distance (a square
  root).  The source only ever *compares* distances (via `std::sort` on
  `(distance, index)` pairs); since `sqrt` is strictly monotone, comparing
  squared distances yields exactly the same order, including ties, so the
  embedding sorts by squared distance.
* `std::sort` on `std::pair<float,int>` uses strict lexicographic order;
  as all indices are pairwise distinct this order is total and strict, so
  the sorted permutation is unique and any sorting algorithm produces it.
  The embedding uses `List.insertionSort` with the reflexive closure of
  that order.
* `std::unordered_map<int, std::unordered_set<int>>` is modelled as an
  association list `List (Int × List Int)`; a neighbour set is modelled as
  the list of its elements in insertion order (`setInsert` reproduces the
  set semantics of `unordered_set::insert`).
* `std::vector::operator[]` with an index that is negative is undefined
  behaviour in C++; the embedding makes such a read return `none`
  (`getPoint?`), and the face-finding stage propagates it as `none`.
  An index that is merely too large is caught by the explicit bounds test
  at the top of `arePointsCoplanar` before any element access, exactly as
  in the source.
-/

/-- Coordinates of a `QVector3D`, modelled over `ℚ`. -/
structure Vec3 where
  x : ℚ
  y : ℚ
  z : ℚ
deriving DecidableEq, Repr, Inhabited

/-- Componentwise difference, `QVector3D::operator-`. -/
def Vec3.sub (a b : Vec3) : Vec3 :=
  ⟨a.x - b.x, a.y - b.y, a.z - b.z⟩

/-- Dot product, `QVector3D::dotProduct`. -/
def Vec3.dot (a b : Vec3) : ℚ :=
  a.x * b.x + a.y * b.y + a.z * b.z

/-- Cross product, `QVector3D::crossProduct`. -/
def Vec3.cross (a b : Vec3) : Vec3 :=
  ⟨a.y * b.z - a.z * b.y, a.z * b.x - a.x * b.z, a.x * b.y - a.y * b.x⟩

/-- Squared Euclidean norm, `QVector3D::lengthSquared`. -/
def Vec3.lengthSquared (a : Vec3) : ℚ :=
  Vec3.dot a a

/-- Squared distance between two points; `distanceToPoint` squared. -/
def Vec3.distSq (a b : Vec3) : ℚ :=
  Vec3.lengthSquared (Vec3.sub a b)

/-- The `MeshPoint` struct: a position and a required neighbour count. -/
structure MeshPoint where
  pos : Vec3
  required_neighbors : Int
deriving DecidableEq, Repr, Inhabited

/-- The `AdjacencyGraph` type `unordered_map<int, unordered_set<int>>`,
modelled as an association list from point index to neighbour list. -/
abbrev AdjacencyGraph : Type := List (Int × List Int)

/-- The `QuadFace` type `std::array<int, 4>`. -/
structure QuadFace where
  p0 : Int
  p1 : Int
  p2 : Int
  p3 : Int
deriving DecidableEq, Repr

/-- Entries of a `QuadFace` in slot order. -/
def QuadFace.toList (f : QuadFace) : List Int :=
  [f.p0, f.p1, f.p2, f.p3]

/-- The `Hexahedron` type `std::array<int, 8>`, modelled as a list whose
construction in `buildHexahedra` always yields 8 entries. -/
abbrev Hexahedron : Type := List Int

/-- Lookup of a key in the adjacency graph (`unordered_map::count` /
`unordered_map::at` combined). -/
def adjLookup (g : AdjacencyGraph) (i : Int) : Option (List Int) :=
  List.lookup i g

/-- Check that a key has an entry, `adjGraph.count(i)`. -/
def adjHasKey (g : AdjacencyGraph) (i : Int) : Bool :=
  (adjLookup g i).isSome

/-- Neighbour list of a key; only meaningful when the key is present
(`adjGraph.at(i)`). -/
def adjNbrs (g : AdjacencyGraph) (i : Int) : List Int :=
  (adjLookup g i).getD []

/-- Insertion into an `unordered_set<int>`, modelled on lists: a duplicate
is dropped, a new element is appended. -/
def setInsert (s : List Int) (x : Int) : List Int :=
  if x ∈ s then s else s ++ [x]

/-- Position of the point at a (valid) `Nat` index, with a default value
for out-of-range access. -/
def posD (points : List MeshPoint) (i : Nat) : Vec3 :=
  (points.getD i default).pos

/-- The `(distance, index)` pair list built for point `i` in
`buildAdjacencyGraph` (distances represented squared, see header note). -/
def distList (points : List MeshPoint) (i : Nat) : List (ℚ × Int) :=
  ((List.range points.length).filter (fun j => j ≠ i)).map
    (fun j => (Vec3.distSq (posD points i) (posD points j), Int.ofNat j))

/-- Reflexive closure of the strict lexicographic order used by
`std::sort` on `std::pair<float,int>`. -/
def distLE (a b : ℚ × Int) : Prop :=
  a.1 < b.1 ∨ (a.1 = b.1 ∧ a.2 ≤ b.2)

instance : DecidableRel distLE := fun a b =>
  inferInstanceAs (Decidable (a.1 < b.1 ∨ (a.1 = b.1 ∧ a.2 ≤ b.2)))

/-- Result of `std::sort(distances.begin(), distances.end())`. -/
def sortedDistances (points : List MeshPoint) (i : Nat) : List (ℚ × Int) :=
  List.insertionSort distLE (distList points i)

/-- Neighbour list selected for point `i`: the nearest
`required_neighbors` indices, clamped to the available count, inserted in
ascending-distance order. -/
def neighborsOf (points : List MeshPoint) (i : Nat) : List Int :=
  List.foldl setInsert []
    (((sortedDistances points i).take
        (points.getD i default).required_neighbors.toNat).map Prod.snd)

/-- Step 1, `ReconstructionEngine::buildAdjacencyGraph`. -/
def buildAdjacencyGraph (points : List MeshPoint) : AdjacencyGraph :=
  if points.isEmpty then []
  else (List.range points.length).map (fun i => (Int.ofNat i, neighborsOf points i))

/-- Element access `points[i]` for a C++ `int` index: `none` models the
undefined behaviour of a negative index, a too-large index is also
`none` (the callers below never reach that case unguarded). -/
def getPoint? (points : List MeshPoint) (i : Int) : Option MeshPoint :=
  if 0 ≤ i then points[i.toNat]? else none

/-- Position at a C++ `int` index with a default, used where the source
re-reads `points[idx].pos` after bounds have already been established. -/
def getPosD (points : List MeshPoint) (i : Int) : Vec3 :=
  ((getPoint? points i).getD default).pos

/-- Absolute value, `std::abs`, written so that it evaluates by kernel
reduction. -/
def ratAbs (q : ℚ) : ℚ := if q < 0 then -q else q

/-- Default value of the `tolerance` parameter of `arePointsCoplanar`
(`1e-3f` in the source). -/
def coplanarTolerance : ℚ := 1/1000

/-- The helper `arePointsCoplanar`: first the explicit upper bounds test of
the source (`face[k] >= (int)points.size()` for any slot returns `false`),
then four element reads (undefined, hence `none`, for a negative index),
then the scalar-triple-product test. -/
def arePointsCoplanar (points : List MeshPoint) (face : QuadFace)
    (tolerance : ℚ) : Option Bool :=
  if (points.length : Int) ≤ face.p0 ∨ (points.length : Int) ≤ face.p1 ∨
      (points.length : Int) ≤ face.p2 ∨ (points.length : Int) ≤ face.p3 then
    some false
  else do
    let q0 ← getPoint? points face.p0
    let q1 ← getPoint? points face.p1
    let q2 ← getPoint? points face.p2
    let q3 ← getPoint? points face.p3
    let v1 := Vec3.sub q1.pos q0.pos
    let v2 := Vec3.sub q2.pos q0.pos
    let v3 := Vec3.sub q3.pos q0.pos
    let volume := Vec3.dot v1 (Vec3.cross v2 v3)
    some (ratAbs volume < tolerance)

/-- Scalar triple product computed by `arePointsCoplanar` (the `volume`
variable): `dot(p1 - p0, cross(p2 - p0, p3 - p0))`, read through
`getPosD`. -/
def tripleProduct (points : List MeshPoint) (face : QuadFace) : ℚ :=
  Vec3.dot
    (Vec3.sub (getPosD points face.p1) (getPosD points face.p0))
    (Vec3.cross
      (Vec3.sub (getPosD points face.p2) (getPosD points face.p0))
      (Vec3.sub (getPosD points face.p3) (getPosD points face.p0)))

/-- Squared edge `p0p1` of a face candidate (`edge01_sq`). -/
def edge01Sq (points : List MeshPoint) (f : QuadFace) : ℚ :=
  Vec3.lengthSquared (Vec3.sub (getPosD points f.p0) (getPosD points f.p1))

/-- Squared edge `p1p2` of a face candidate (`edge12_sq`). -/
def edge12Sq (points : List MeshPoint) (f : QuadFace) : ℚ :=
  Vec3.lengthSquared (Vec3.sub (getPosD points f.p1) (getPosD points f.p2))

/-- Squared edge `p2p3` of a face candidate (`edge23_sq`). -/
def edge23Sq (points : List MeshPoint) (f : QuadFace) : ℚ :=
  Vec3.lengthSquared (Vec3.sub (getPosD points f.p2) (getPosD points f.p3))

/-- Squared edge `p3p0` of a face candidate (`edge30_sq`). -/
def edge30Sq (points : List MeshPoint) (f : QuadFace) : ℚ :=
  Vec3.lengthSquared (Vec3.sub (getPosD points f.p3) (getPosD points f.p0))

/-- Squared diagonal `p0p2` of a face candidate (`diag02_sq`). -/
def diag02Sq (points : List MeshPoint) (f : QuadFace) : ℚ :=
  Vec3.lengthSquared (Vec3.sub (getPosD points f.p0) (getPosD points f.p2))

/-- Squared diagonal `p1p3` of a face candidate (`diag13_sq`). -/
def diag13Sq (points : List MeshPoint) (f : QuadFace) : ℚ :=
  Vec3.lengthSquared (Vec3.sub (getPosD points f.p1) (getPosD points f.p3))

/-- Largest of the four squared edge lengths (`max_edge_sq`). -/
def maxEdgeSq (points : List MeshPoint) (f : QuadFace) : ℚ :=
  max (max (edge01Sq points f) (edge12Sq points f))
    (max (edge23Sq points f) (edge30Sq points f))

/-- The edge-length / diagonal filter of `findValidFaces`: both squared
diagonals must exceed `1.01` times the largest squared edge. -/
def diagonalCheck (points : List MeshPoint) (face : QuadFace) : Bool :=
  decide (maxEdgeSq points face * (101/100) < diag02Sq points face ∧
    maxEdgeSq points face * (101/100) < diag13Sq points face)

/-- Upper-triangular pairs: all `(l[i], l[j])` with `i < j`, in the nested
loop order of the source. -/
def upperPairs {α : Type} : List α → List (α × α)
  | [] => []
  | x :: xs => xs.map (fun y => (x, y)) ++ upperPairs xs

/-- Inner loop of `findValidFaces` for a fixed `p0` and neighbour pair
`(p1, p3)`: skip unless both are graph keys, then collect every candidate
4-cycle `(p0, p1, p2, p3)` with `p2` a neighbour of `p1`, distinct from
`p0`, and also a neighbour of `p3`. -/
def candidatesAt (g : AdjacencyGraph) (p0 : Int) (pr : Int × Int) : List QuadFace :=
  if adjHasKey g pr.1 && adjHasKey g pr.2 then
    (adjNbrs g pr.1).filterMap (fun p2 =>
      if p2 ≠ p0 ∧ p2 ∈ adjNbrs g pr.2 then some ⟨p0, pr.1, p2, pr.2⟩ else none)
  else []

/-- All face candidates of `findValidFaces`, in traversal order: `p0`
ascending over the point indices (skipping absent keys), then unordered
neighbour pairs, then the `p2` loop. -/
def candidateFaces (points : List MeshPoint) (g : AdjacencyGraph) : List QuadFace :=
  (List.range points.length).flatMap (fun p0n =>
    match adjLookup g (Int.ofNat p0n) with
    | none => []
    | some nbrs => (upperPairs nbrs).flatMap (candidatesAt g (Int.ofNat p0n)))

/-- Geometric acceptance test applied to one candidate in
`findValidFaces`: the coplanarity test (with its default tolerance)
followed, on success, by the diagonal filter. -/
def checkFace (points : List MeshPoint) (f : QuadFace) : Option Bool := do
  let coplanar ← arePointsCoplanar points f coplanarTolerance
  if coplanar then pure (diagonalCheck points f) else pure false

/-- Canonical key of a face: its four indices sorted ascending
(`std::sort(sortedFace...)`). -/
def faceKey (f : QuadFace) : List Int :=
  List.insertionSort (· ≤ ·) f.toList

/-- The accumulation loop of `findValidFaces`: `acc` is `validFaces`,
`seen` is `uniqueFaces`; an accepted candidate whose canonical key is new
is appended verbatim. -/
def faceLoop (points : List MeshPoint) :
    List QuadFace → List QuadFace → List (List Int) → Option (List QuadFace)
  | [], acc, _ => some acc
  | f :: rest, acc, seen =>
    match checkFace points f with
    | none => none
    | some ok =>
      if ok then
        if faceKey f ∈ seen then faceLoop points rest acc seen
        else faceLoop points rest (acc ++ [f]) (faceKey f :: seen)
      else faceLoop points rest acc seen

/-- Step 2, `ReconstructionEngine::findValidFaces`. -/
def findValidFaces (points : List MeshPoint) (g : AdjacencyGraph) :
    Option (List QuadFace) :=
  faceLoop points (candidateFaces points g) [] []

/-- Connecting edges collected for a face pair in `buildHexahedra`:
all `(p1, p2)` with `p1` a slot of `face1` that is a graph key and `p2` a
slot of `face2` contained in `p1`'s neighbour set. -/
def connectingEdges (g : AdjacencyGraph) (f1 f2 : QuadFace) : List (Int × Int) :=
  f1.toList.flatMap (fun a =>
    if adjHasKey g a then
      f2.toList.filterMap (fun b => if b ∈ adjNbrs g a then some (a, b) else none)
    else [])

/-- Candidate construction for one face pair in `buildHexahedra`:
the disjointness check, the exactly-4-connecting-edges check and the
perfect-matching check; on success the hexahedron is the 4 first
endpoints followed by the 4 second endpoints. -/
def hexCandidate (g : AdjacencyGraph) (pr : QuadFace × QuadFace) : Option Hexahedron :=
  if pr.2.toList.any (fun p => p ∈ pr.1.toList) then none
  else
    let ce := connectingEdges g pr.1 pr.2
    if ce.length = 4 then
      if (ce.map Prod.fst).dedup.length = 4 ∧ (ce.map Prod.snd).dedup.length = 4 then
        some (ce.map Prod.fst ++ ce.map Prod.snd)
      else none
    else none

/-- The full candidate list of `buildHexahedra`, over all face pairs
`i < j` in input order. -/
def hexCandidates (validFaces : List QuadFace) (g : AdjacencyGraph) :
    List Hexahedron :=
  (upperPairs validFaces).filterMap (hexCandidate g)

/-- Canonical key of a hexahedron: all 8 indices sorted ascending. -/
def hexKey (h : Hexahedron) : List Int :=
  List.insertionSort (· ≤ ·) h

/-- The deduplication loop of `buildHexahedra`: a candidate whose sorted
key has fewer than 8 distinct entries is dropped; a candidate whose key
was already seen is dropped; otherwise the candidate is appended
verbatim. -/
def hexLoop : List Hexahedron → List Hexahedron → List (List Int) → List Hexahedron
  | [], acc, _ => acc
  | hex :: rest, acc, seen =>
    if (hexKey hex).dedup.length ≠ 8 then hexLoop rest acc seen
    else if hexKey hex ∈ seen then hexLoop rest acc seen
    else hexLoop rest (acc ++ [hex]) (hexKey hex :: seen)

/-- Step 3, `ReconstructionEngine::buildHexahedra`. -/
def buildHexahedra (validFaces : List QuadFace) (g : AdjacencyGraph) :
    List Hexahedron :=
  hexLoop (hexCandidates validFaces g) [] []

/-- First-occurrence deduplication by a canonical key, the specification
pattern the stage-2 and stage-3 loops implement: elements are kept
verbatim, later elements whose key was already seen are dropped. -/
def dedupByKey {α : Type} (key : α → List Int) : List α → List (List Int) → List α
  | [], _ => []
  | x :: xs, seen =>
    if key x ∈ seen then dedupByKey key xs seen
    else x :: dedupByKey key xs (key x :: seen)

/-- The 16-point data set loaded in `MainWindow::MainWindow`
(`m_points` in `mainwindow.cpp`); note the first coordinate `-0.2`. -/
def m_points : List MeshPoint :=
  [⟨⟨-1/5, 0, 0⟩, 3⟩, ⟨⟨1, 0, 0⟩, 3⟩, ⟨⟨1, 1, 0⟩, 3⟩, ⟨⟨0, 1, 0⟩, 3⟩,
   ⟨⟨0, 0, 1⟩, 4⟩, ⟨⟨1, 0, 1⟩, 4⟩, ⟨⟨1, 1, 1⟩, 4⟩, ⟨⟨0, 1, 1⟩, 4⟩,
   ⟨⟨0, 0, 2⟩, 4⟩, ⟨⟨1, 0, 2⟩, 4⟩, ⟨⟨1, 1, 2⟩, 4⟩, ⟨⟨0, 1, 2⟩, 4⟩,
   ⟨⟨0, 0, 3⟩, 3⟩, ⟨⟨1, 0, 3⟩, 3⟩, ⟨⟨1, 1, 3⟩, 3⟩, ⟨⟨0, 1, 3⟩, 3⟩]

/-! ### Generic list lemmas -/

/-- Membership in `upperPairs`: both components come from the list. -/
theorem mem_upperPairs {α : Type} :
    ∀ {l : List α} {p : α × α}, p ∈ upperPairs l → p.1 ∈ l ∧ p.2 ∈ l := by
  intro l
  induction l with
  | nil => intro p h; simp [upperPairs] at h
  | cons x xs ih =>
    intro p h
    simp only [upperPairs] at h
    rcases List.mem_append.1 h with h | h
    · obtain ⟨y, hy, rfl⟩ := List.mem_map.1 h
      exact ⟨List.mem_cons_self _ _, List.mem_cons_of_mem _ hy⟩
    · obtain ⟨h1, h2⟩ := ih h
      exact ⟨List.mem_cons_of_mem _ h1, List.mem_cons_of_mem _ h2⟩

/-- Elements produced by `dedupByKey` come from the input list. -/
theorem mem_dedupByKey {α : Type} {key : α → List Int} :
    ∀ {l : List α} {seen : List (List Int)} {x : α},
      x ∈ dedupByKey key l seen → x ∈ l := by
  intro l
  induction l with
  | nil => intro seen x h; simp [dedupByKey] at h
  | cons y ys ih =>
    intro seen x h
    simp only [dedupByKey] at h
    by_cases hk : key y ∈ seen
    · rw [if_pos hk] at h
      exact List.mem_cons_of_mem _ (ih h)
    · rw [if_neg hk] at h
      rcases List.mem_cons.1 h with rfl | h
      · exact List.mem_cons_self _ _
      · exact List.mem_cons_of_mem _ (ih h)

/-- Keys of elements produced by `dedupByKey` avoid the seen set. -/
theorem key_notmem_of_mem_dedupByKey {α : Type} {key : α → List Int} :
    ∀ {l : List α} {seen : List (List Int)} {x : α},
      x ∈ dedupByKey key l seen → key x ∉ seen := by
  intro l
  induction l with
  | nil => intro seen x h; simp [dedupByKey] at h
  | cons y ys ih =>
    intro seen x h
    simp only [dedupByKey] at h
    by_cases hk : key y ∈ seen
    · rw [if_pos hk] at h
      exact ih h
    · rw [if_neg hk] at h
      rcases List.mem_cons.1 h with rfl | h
      · exact hk
      · intro hmem
        exact ih h (List.mem_cons_of_mem _ hmem)

/-- The output of `dedupByKey` has pairwise distinct keys. -/
theorem pairwise_dedupByKey {α : Type} {key : α → List Int} :
    ∀ (l : List α) (seen : List (List Int)),
      (dedupByKey key l seen).Pairwise (fun a b => key a ≠ key b) := by
  intro l
  induction l with
  | nil => intro seen; simp [dedupByKey]
  | cons y ys ih =>
    intro seen
    simp only [dedupByKey]
    by_cases hk : key y ∈ seen
    · rw [if_pos hk]; exact ih seen
    · rw [if_neg hk]
      refine List.pairwise_cons.2 ⟨?_, ih _⟩
      intro b hb he
      exact key_notmem_of_mem_dedupByKey hb (he ▸ List.mem_cons_self _ _)

/-- Folding `setInsert` over a duplicate-free list of fresh elements is
plain concatenation. -/
theorem foldl_setInsert_of_nodup :
    ∀ (l acc : List Int), l.Nodup → (∀ x ∈ l, x ∉ acc) →
      List.foldl setInsert acc l = acc ++ l := by
  intro l
  induction l with
  | nil => intro acc _ _; simp
  | cons x xs ih =>
    intro acc hnd hfresh
    have hx : x ∉ acc := hfresh x (List.mem_cons_self _ _)
    have hstep : List.foldl setInsert acc (x :: xs) =
        List.foldl setInsert (acc ++ [x]) xs := by
      simp [setInsert, if_neg hx]
    rw [hstep, ih (acc ++ [x]) (List.Nodup.of_cons hnd)]
    · simp
    · intro y hy hmem
      rcases List.mem_append.1 hmem with h | h
      · exact hfresh y (List.mem_cons_of_mem _ hy) h
      · rcases List.mem_singleton.1 h with rfl
        exact (List.nodup_cons.1 hnd).1 hy

/-- Elements produced by a `setInsert` fold come from the seed or the
list. -/
theorem mem_of_mem_foldl_setInsert :
    ∀ (l acc : List Int) (x : Int),
      x ∈ List.foldl setInsert acc l → x ∈ acc ∨ x ∈ l := by
  intro l
  induction l with
  | nil => intro acc x h; exact Or.inl h
  | cons y ys ih =>
    intro acc x h
    rw [List.foldl_cons] at h
    rcases ih (setInsert acc y) x h with hm | hm
    · unfold setInsert at hm
      split at hm
      · exact Or.inl hm
      · rcases List.mem_append.1 hm with hm | hm
        · exact Or.inl hm
        · rcases List.mem_singleton.1 hm with rfl
          exact Or.inr (List.mem_cons_self _ _)
    · exact Or.inr (List.mem_cons_of_mem _ hm)

/-- Looking up index `i < n` in the association list built over
`List.range n` returns the mapped value at `i`. -/
theorem lookup_range_map {β : Type} (f : Nat → β) :
    ∀ (n i : Nat), i < n →
      List.lookup (Int.ofNat i)
        ((List.range n).map fun j => (Int.ofNat j, f j)) = some (f i) := by
  intro n
  induction n with
  | zero => intro i hi; omega
  | succ m ih =>
    intro i hi
    rw [List.range_succ, List.map_append, List.lookup_append]
    by_cases hc : i < m
    · rw [ih i hc]; rfl
    · have hieq : i = m := by omega
      subst hieq
      have hnone : List.lookup (Int.ofNat i)
          ((List.range i).map fun j => (Int.ofNat j, f j)) = none := by
        rw [List.lookup_eq_none_iff]
        intro p hp
        simp only [List.mem_map, List.mem_range] at hp
        obtain ⟨j, hj, rfl⟩ := hp
        simp only [bne_iff_ne, ne_eq]
        intro hcontra
        have : i = j := by
          have := congrArg Int.toNat hcontra
          simpa using this
        omega
      rw [hnone]
      simp

/-- Removing one occurrence from a duplicate-free list by filtering
shortens it by exactly one. -/
theorem length_filter_ne_of_nodup (l : List Nat) (i : Nat) (hnd : l.Nodup)
    (hmem : i ∈ l) :
    (l.filter (fun j => j ≠ i)).length = l.length - 1 := by
  have hcong : l.filter (fun j => j ≠ i) = l.filter (fun j => j != i) := by
    apply List.filter_congr
    intro a _
    by_cases hai : a = i
    · simp [hai]
    · simp [hai]
  rw [hcong, show (fun j => j != i) = (· != i) from rfl,
    ← List.Nodup.erase_eq_filter hnd i]
  exact List.length_erase_of_mem hmem

/-! ### Geometric facts about the embedded vector operations -/

/-- Squared norms are nonnegative. -/
theorem Vec3.lengthSquared_nonneg (a : Vec3) : 0 ≤ Vec3.lengthSquared a := by
  unfold Vec3.lengthSquared Vec3.dot
  nlinarith [mul_self_nonneg a.x, mul_self_nonneg a.y, mul_self_nonneg a.z]

/-- Squared distance is symmetric in its endpoints. -/
theorem Vec3.lengthSquared_sub_comm (a b : Vec3) :
    Vec3.lengthSquared (Vec3.sub a b) = Vec3.lengthSquared (Vec3.sub b a) := by
  unfold Vec3.lengthSquared Vec3.dot Vec3.sub
  ring

/-- Squared distance from a point to itself vanishes. -/
theorem Vec3.lengthSquared_sub_self (a : Vec3) :
    Vec3.lengthSquared (Vec3.sub a a) = 0 := by
  unfold Vec3.lengthSquared Vec3.dot Vec3.sub
  ring

/-! ### Extraction lemmas for the pipeline definitions -/

/-- Successful element access gives the in-range bounds of the index. -/
theorem getPoint?_bounds {points : List MeshPoint} {i : Int} {q : MeshPoint} :
    getPoint? points i = some q → 0 ≤ i ∧ i < (points.length : Int) := by
  unfold getPoint?
  split
  · intro h
    have hlt := List.getElem?_eq_some_iff.1 h
    obtain ⟨hl, _⟩ := hlt
    constructor
    · assumption
    · omega
  · intro h
    cases h

/-- Successful element access determines `getPosD`. -/
theorem getPosD_eq {points : List MeshPoint} {i : Int} {q : MeshPoint} :
    getPoint? points i = some q → getPosD points i = q.pos := by
  intro h
  unfold getPosD
  rw [h]
  rfl

/-- Out-of-range test of `arePointsCoplanar`: an index at or above the
point count makes the helper return `some false` before any access. -/
theorem arePointsCoplanar_oob {points : List MeshPoint} {f : QuadFace} {tol : ℚ} :
    ((points.length : Int) ≤ f.p0 ∨ (points.length : Int) ≤ f.p1 ∨
      (points.length : Int) ≤ f.p2 ∨ (points.length : Int) ≤ f.p3) →
    arePointsCoplanar points f tol = some false := by
  intro h
  unfold arePointsCoplanar
  rw [if_pos h]

/-- Coplanarity success yields in-range indices and the triple-product
bound expressed through `getPosD`. -/
theorem arePointsCoplanar_some_true {points : List MeshPoint} {f : QuadFace}
    {tol : ℚ} :
    arePointsCoplanar points f tol = some true →
    (∀ p ∈ f.toList, 0 ≤ p ∧ p < (points.length : Int)) ∧
      ratAbs (tripleProduct points f) < tol := by
  unfold arePointsCoplanar
  split
  · intro h
    cases h
  · intro h
    cases hq0 : getPoint? points f.p0 with
    | none => rw [hq0] at h; cases h
    | some q0 =>
      cases hq1 : getPoint? points f.p1 with
      | none => rw [hq0, hq1] at h; cases h
      | some q1 =>
        cases hq2 : getPoint? points f.p2 with
        | none => rw [hq0, hq1, hq2] at h; cases h
        | some q2 =>
          cases hq3 : getPoint? points f.p3 with
          | none => rw [hq0, hq1, hq2, hq3] at h; cases h
          | some q3 =>
            rw [hq0, hq1, hq2, hq3] at h
            replace h := Option.some.inj h
            constructor
            · intro p hp
              simp only [QuadFace.toList, List.mem_cons, List.mem_singleton] at hp
              rcases hp with rfl | rfl | rfl | hp
              · exact getPoint?_bounds hq0
              · exact getPoint?_bounds hq1
              · exact getPoint?_bounds hq2
              · rcases hp with rfl | hp
                · exact getPoint?_bounds hq3
                · cases hp
            · have hd := of_decide_eq_true h
              unfold tripleProduct
              rw [getPosD_eq hq0, getPosD_eq hq1, getPosD_eq hq2, getPosD_eq hq3]
              exact hd

/-- Unfolding of a successful `checkFace`: the coplanarity test passed and
the diagonal filter passed. -/
theorem checkFace_some_true {points : List MeshPoint} {f : QuadFace} :
    checkFace points f = some true →
    arePointsCoplanar points f coplanarTolerance = some true ∧
      diagonalCheck points f = true := by
  unfold checkFace
  cases hc : arePointsCoplanar points f coplanarTolerance with
  | none => intro h; cases h
  | some c =>
    cases c with
    | false => intro h; cases h
    | true =>
      intro h
      exact ⟨rfl, Option.some.inj h⟩

/-- Unfolding of a passed diagonal filter. -/
theorem diagonalCheck_true {points : List MeshPoint} {f : QuadFace} :
    diagonalCheck points f = true →
    maxEdgeSq points f * (101/100) < diag02Sq points f ∧
      maxEdgeSq points f * (101/100) < diag13Sq points f := by
  intro h
  exact of_decide_eq_true h

/-- The stage-3 deduplication loop equals first-occurrence deduplication
by canonical key of the guarded candidate list. -/
theorem hexLoop_eq :
    ∀ (l acc : List Hexahedron) (seen : List (List Int)),
      hexLoop l acc seen =
        acc ++ dedupByKey hexKey
          (l.filter (fun h => decide ((hexKey h).dedup.length = 8))) seen := by
  intro l
  induction l with
  | nil => intro acc seen; simp [hexLoop, dedupByKey]
  | cons hex rest ih =>
    intro acc seen
    by_cases h8 : (hexKey hex).dedup.length = 8
    · rw [hexLoop, if_neg (not_not_intro h8), List.filter_cons,
        if_pos (decide_eq_true h8)]
      by_cases hseen : hexKey hex ∈ seen
      · rw [if_pos hseen, dedupByKey, if_pos hseen]
        exact ih acc seen
      · rw [if_neg hseen, dedupByKey, if_neg hseen, ih]
        simp
    · rw [hexLoop, if_pos h8, List.filter_cons,
        if_neg (by simp [h8])]
      exact ih acc seen

/-- The stage-2 accumulation loop, when it returns, equals
first-occurrence deduplication by canonical key of the accepted candidate
list. -/
theorem faceLoop_eq (points : List MeshPoint) :
    ∀ (l acc : List QuadFace) (seen : List (List Int)) (out : List QuadFace),
      faceLoop points l acc seen = some out →
      out = acc ++ dedupByKey faceKey
        (l.filter (fun f => decide (checkFace points f = some true))) seen := by
  intro l
  induction l with
  | nil =>
    intro acc seen out h
    rw [faceLoop] at h
    rw [← Option.some.inj h]
    simp [dedupByKey]
  | cons f rest ih =>
    intro acc seen out h
    rw [faceLoop] at h
    cases hc : checkFace points f with
    | none => rw [hc] at h; cases h
    | some ok =>
      rw [hc] at h
      cases ok with
      | false =>
        rw [List.filter_cons, if_neg (by simp [hc])]
        exact ih acc seen out h
      | true =>
        rw [List.filter_cons, if_pos (decide_eq_true (by rw [hc]))]
        by_cases hseen : faceKey f ∈ seen
        · rw [if_pos hseen] at h
          rw [dedupByKey, if_pos hseen]
          exact ih acc seen out h
        · rw [if_neg hseen] at h
          rw [dedupByKey, if_neg hseen]
          have := ih (acc ++ [f]) (faceKey f :: seen) out h
          rw [this]
          simp

/-- Characterization of the connecting edges collected for a face pair:
exactly the pairs `(a, b)` with `a` a slot of the first face, `b` a slot
of the second face, and `b` in `a`'s stored neighbour set.  Edges present
only in the reverse direction are not collected. -/
theorem mem_connectingEdges {g : AdjacencyGraph} {f1 f2 : QuadFace}
    {a b : Int} :
    (a, b) ∈ connectingEdges g f1 f2 ↔
      a ∈ f1.toList ∧ b ∈ f2.toList ∧ b ∈ adjNbrs g a := by
  unfold connectingEdges
  rw [List.mem_flatMap]
  constructor
  · rintro ⟨x, hx, hmem⟩
    split at hmem
    · obtain ⟨y, hy, he⟩ := List.mem_filterMap.1 hmem
      split at he
      · obtain ⟨rfl, rfl⟩ := Prod.mk.inj (Option.some.inj he)
        exact ⟨hx, hy, by assumption⟩
      · cases he
    · cases hmem
  · rintro ⟨ha, hb, hadj⟩
    refine ⟨a, ha, ?_⟩
    have hkey : adjHasKey g a = true := by
      unfold adjNbrs at hadj
      unfold adjHasKey
      cases hl : adjLookup g a with
      | none => rw [hl] at hadj; cases hadj
      | some nb => simp
    rw [if_pos hkey]
    exact List.mem_filterMap.2 ⟨b, hb, by rw [if_pos hadj]⟩

/-- Structure of an accepted stage-2 candidate: some anchor `p0` with a
pair of its neighbours and a connecting `p2` distinct from `p0`; in
particular the third slot always differs from the first. -/
theorem candidateFaces_p2_ne_p0 {points : List MeshPoint} {g : AdjacencyGraph}
    {f : QuadFace} :
    f ∈ candidateFaces points g → f.p2 ≠ f.p0 := by
  unfold candidateFaces
  intro h
  obtain ⟨p0n, _, hmem⟩ := List.mem_flatMap.1 h
  cases hl : adjLookup g (Int.ofNat p0n) with
  | none => rw [hl] at hmem; cases hmem
  | some nbrs =>
    rw [hl] at hmem
    obtain ⟨pr, _, hf⟩ := List.mem_flatMap.1 hmem
    unfold candidatesAt at hf
    split at hf
    · obtain ⟨p2, _, he⟩ := List.mem_filterMap.1 hf
      split at he
      · rw [← Option.some.inj he]
        simpa using (by assumption : p2 ≠ Int.ofNat p0n ∧ p2 ∈ adjNbrs g pr.2).1
      · cases he
    · cases hf

/-- Acceptance by the geometric filters forces the four slots of a face
candidate to be pairwise distinct, for an arbitrary adjacency graph:
an index collision makes one squared diagonal coincide with a squared
edge (or vanish), contradicting the strict `1.01` diagonal margin. -/
theorem accepted_face_nodup {points : List MeshPoint} {g : AdjacencyGraph}
    {f : QuadFace} (hcand : f ∈ candidateFaces points g)
    (hdiag : diagonalCheck points f = true) : f.toList.Nodup := by
  obtain ⟨hd02, hd13⟩ := diagonalCheck_true hdiag
  have hne20 := candidateFaces_p2_ne_p0 hcand
  have e01 : (0:ℚ) ≤ edge01Sq points f := Vec3.lengthSquared_nonneg _
  have e12 : (0:ℚ) ≤ edge12Sq points f := Vec3.lengthSquared_nonneg _
  have e30 : (0:ℚ) ≤ edge30Sq points f := Vec3.lengthSquared_nonneg _
  have m01 : edge01Sq points f ≤ maxEdgeSq points f :=
    le_trans (le_max_left _ _) (le_max_left _ _)
  have m12 : edge12Sq points f ≤ maxEdgeSq points f :=
    le_trans (le_max_right _ _) (le_max_left _ _)
  have m30 : edge30Sq points f ≤ maxEdgeSq points f :=
    le_trans (le_max_right _ _) (le_max_right _ _)
  have h01 : f.p0 ≠ f.p1 := by
    intro heq
    have hEq : diag13Sq points f = edge30Sq points f := by
      unfold diag13Sq edge30Sq
      rw [heq]
      exact Vec3.lengthSquared_sub_comm _ _
    linarith [hd13, m30, e30, hEq]
  have h02 : f.p0 ≠ f.p2 := fun he => hne20 he.symm
  have h03 : f.p0 ≠ f.p3 := by
    intro heq
    have hEq : diag13Sq points f = edge01Sq points f := by
      unfold diag13Sq edge01Sq
      rw [← heq]
      exact Vec3.lengthSquared_sub_comm _ _
    linarith [hd13, m01, e01, hEq]
  have h12 : f.p1 ≠ f.p2 := by
    intro heq
    have hEq : diag02Sq points f = edge01Sq points f := by
      unfold diag02Sq edge01Sq
      rw [heq]
    linarith [hd02, m01, e01, hEq]
  have h13 : f.p1 ≠ f.p3 := by
    intro heq
    have hEq : diag13Sq points f = 0 := by
      unfold diag13Sq
      rw [heq]
      exact Vec3.lengthSquared_sub_self _
    linarith [hd13, m01, e01, hEq]
  have h23 : f.p2 ≠ f.p3 := by
    intro heq
    have hEq : diag13Sq points f = edge12Sq points f := by
      unfold diag13Sq edge12Sq
      rw [← heq]
    linarith [hd13, m12, e12, hEq]
  simp [QuadFace.toList, List.nodup_cons, h01, h02, h03, h12, h13, h23]

/-- A list whose `dedup` keeps its full length has no duplicates. -/
theorem nodup_of_dedup_length_eq {l : List Int} (h : l.dedup.length = l.length) :
    l.Nodup :=
  List.dedup_eq_self.1 (List.Sublist.eq_of_length l.dedup_sublist h)

/-- Faces returned by `findValidFaces` are accepted traversal
candidates. -/
theorem mem_findValidFaces {points : List MeshPoint} {g : AdjacencyGraph}
    {out : List QuadFace} {f : QuadFace} :
    findValidFaces points g = some out → f ∈ out →
    f ∈ candidateFaces points g ∧ checkFace points f = some true := by
  intro h hf
  rw [faceLoop_eq points _ [] [] out h, List.nil_append] at hf
  have hfil := List.mem_filter.1 (mem_dedupByKey hf)
  exact ⟨hfil.1, of_decide_eq_true hfil.2⟩

/-- Hexahedra returned by `buildHexahedra` are candidates that passed the
8-distinct-indices guard. -/
theorem mem_buildHexahedra {faces : List QuadFace} {g : AdjacencyGraph}
    {hex : Hexahedron} :
    hex ∈ buildHexahedra faces g →
    hex ∈ hexCandidates faces g ∧ (hexKey hex).dedup.length = 8 := by
  intro h
  unfold buildHexahedra at h
  rw [hexLoop_eq, List.nil_append] at h
  have hfil := List.mem_filter.1 (mem_dedupByKey h)
  exact ⟨hfil.1, of_decide_eq_true hfil.2⟩

/-- Structure of a stage-3 candidate: a pair of faces from the input
list, vertex-disjoint, with exactly 4 connecting edges whose endpoint
multisets are duplicate-free on both sides, assembled side by side. -/
theorem mem_hexCandidates {faces : List QuadFace} {g : AdjacencyGraph}
    {hex : Hexahedron} :
    hex ∈ hexCandidates faces g →
    ∃ f1 f2 : QuadFace, f1 ∈ faces ∧ f2 ∈ faces ∧
      (∀ p ∈ f2.toList, p ∉ f1.toList) ∧
      (connectingEdges g f1 f2).length = 4 ∧
      ((connectingEdges g f1 f2).map Prod.fst).dedup.length = 4 ∧
      ((connectingEdges g f1 f2).map Prod.snd).dedup.length = 4 ∧
      hex = (connectingEdges g f1 f2).map Prod.fst ++
        (connectingEdges g f1 f2).map Prod.snd := by
  intro h
  obtain ⟨pr, hpr, he⟩ := List.mem_filterMap.1 h
  simp only [hexCandidate] at he
  by_cases hdis : pr.2.toList.any (fun p => decide (p ∈ pr.1.toList)) = true
  · rw [if_pos hdis] at he; cases he
  · rw [if_neg hdis] at he
    by_cases hlen : (connectingEdges g pr.1 pr.2).length = 4
    · rw [if_pos hlen] at he
      by_cases hmatch : ((connectingEdges g pr.1 pr.2).map Prod.fst).dedup.length = 4 ∧
          ((connectingEdges g pr.1 pr.2).map Prod.snd).dedup.length = 4
      · rw [if_pos hmatch] at he
        refine ⟨pr.1, pr.2, (mem_upperPairs hpr).1, (mem_upperPairs hpr).2,
          ?_, hlen, hmatch.1, hmatch.2, (Option.some.inj he).symm⟩
        intro p hp hmem
        exact hdis (List.any_eq_true.2 ⟨p, hp, decide_eq_true hmem⟩)
      · rw [if_neg hmatch] at he; cases he
    · rw [if_neg hlen] at he; cases he

/-! ### Concrete data used by witnesses -/

/-- Asymmetric graph joining the quad `0,1,2,3` to the quad `4,5,6,7` by
four forward-only edges. -/
def wGraph : AdjacencyGraph := [(0, [4]), (1, [5]), (2, [6]), (3, [7])]

/-- Unit square point set. -/
def sqPoints : List MeshPoint :=
  [⟨⟨0, 0, 0⟩, 2⟩, ⟨⟨1, 0, 0⟩, 2⟩, ⟨⟨1, 1, 0⟩, 2⟩, ⟨⟨0, 1, 0⟩, 2⟩]

/-- Cycle graph of the unit square in index order `0-1-2-3`. -/
def sqGraph : AdjacencyGraph :=
  [(0, [1, 3]), (1, [0, 2]), (2, [1, 3]), (3, [0, 2])]

/-- Unit square with the last two positions swapped, so that the 4-cycle
of the graph below traverses it in the non-sorted order `0-1-3-2`. -/
def swPoints : List MeshPoint :=
  [⟨⟨0, 0, 0⟩, 2⟩, ⟨⟨1, 0, 0⟩, 2⟩, ⟨⟨0, 1, 0⟩, 2⟩, ⟨⟨1, 1, 0⟩, 2⟩]

/-- Cycle graph of `swPoints` traversing the square as `0-1-3-2`. -/
def swGraph : AdjacencyGraph :=
  [(0, [1, 2]), (1, [0, 3]), (2, [0, 3]), (3, [1, 2])]

/-- Three collinear points with required neighbour counts `5`, `1` and
`-1`, exercising clamping and nonpositive counts. -/
def wPoints : List MeshPoint :=
  [⟨⟨0, 0, 0⟩, 5⟩, ⟨⟨1, 0, 0⟩, 1⟩, ⟨⟨2, 0, 0⟩, -1⟩]

/-! ### Claim theorems -/

/-- C5: for every input, no two faces returned by `findValidFaces` share
the same sorted 4-index key, and the returned list is exactly the
first-occurrence key-deduplication of the accepted traversal candidates,
each kept verbatim in the vertex order of the traversal that first
discovered it (not in sorted order). -/
theorem C5_face_uniqueness (points : List MeshPoint) (g : AdjacencyGraph)
    (out : List QuadFace) (h : findValidFaces points g = some out) :
    out.Pairwise (fun a b => faceKey a ≠ faceKey b) ∧
    out = dedupByKey faceKey
      ((candidateFaces points g).filter
        (fun f => decide (checkFace points f = some true))) [] := by
  have he := faceLoop_eq points _ [] [] out h
  rw [List.nil_append] at he
  exact ⟨he ▸ pairwise_dedupByKey _ _, he⟩

/-- Witness for C5 at a concrete input where the first-discovered cycle
order `0-1-3-2` is not the sorted order and is kept verbatim. -/
theorem C5_face_uniqueness_witness :
    ([⟨0, 1, 3, 2⟩] : List QuadFace).Pairwise (fun a b => faceKey a ≠ faceKey b) ∧
    ([⟨0, 1, 3, 2⟩] : List QuadFace) = dedupByKey faceKey
      ((candidateFaces swPoints swGraph).filter
        (fun f => decide (checkFace swPoints f = some true))) [] :=
  C5_face_uniqueness swPoints swGraph [⟨0, 1, 3, 2⟩] (by decide)

/-- C6: for every input, no two hexahedra returned by `buildHexahedra`
share the same sorted 8-index key, and the returned list is exactly the
first-occurrence key-deduplication of the guarded candidate list, each
kept verbatim in its original slot order. -/
theorem C6_hexahedron_uniqueness (faces : List QuadFace) (g : AdjacencyGraph) :
    (buildHexahedra faces g).Pairwise (fun a b => hexKey a ≠ hexKey b) ∧
    buildHexahedra faces g = dedupByKey hexKey
      ((hexCandidates faces g).filter
        (fun hx => decide ((hexKey hx).dedup.length = 8))) [] := by
  have he : buildHexahedra faces g = dedupByKey hexKey
      ((hexCandidates faces g).filter
        (fun hx => decide ((hexKey hx).dedup.length = 8))) [] := by
    unfold buildHexahedra
    rw [hexLoop_eq, List.nil_append]
  exact ⟨he ▸ pairwise_dedupByKey _ _, he⟩

/-- C8: the connecting edges collected for a face pair are exactly the
directed pairs `(a, b)` with `a` in the first face, `b` in the second and
`b` stored in `a`'s neighbour set — reverse-only edges are not counted —
and consequently over an asymmetric graph the emitted hexahedra depend on
the order of the faces in the input list. -/
theorem C8_directed_connecting_edges :
    (∀ (g : AdjacencyGraph) (f1 f2 : QuadFace) (a b : Int),
      (a, b) ∈ connectingEdges g f1 f2 ↔
        a ∈ f1.toList ∧ b ∈ f2.toList ∧ b ∈ adjNbrs g a) ∧
    buildHexahedra [⟨0, 1, 2, 3⟩, ⟨4, 5, 6, 7⟩] wGraph ≠
      buildHexahedra [⟨4, 5, 6, 7⟩, ⟨0, 1, 2, 3⟩] wGraph :=
  ⟨fun _ _ _ _ _ => mem_connectingEdges, by decide⟩

/-- C7 (amended): an index at or above the point count makes
`arePointsCoplanar` return `some false` before any element access, and
every face actually emitted by `findValidFaces` references only in-range
indices; a negative index is NOT rejected — it escapes the bounds test
and reaches an out-of-bounds element read. -/
theorem C7_out_of_range_rejection :
    (∀ (points : List MeshPoint) (f : QuadFace) (tol : ℚ),
      ((points.length : Int) ≤ f.p0 ∨ (points.length : Int) ≤ f.p1 ∨
        (points.length : Int) ≤ f.p2 ∨ (points.length : Int) ≤ f.p3) →
      arePointsCoplanar points f tol = some false) ∧
    (∀ (points : List MeshPoint) (g : AdjacencyGraph) (out : List QuadFace),
      findValidFaces points g = some out →
      ∀ f ∈ out, ∀ p ∈ f.toList, 0 ≤ p ∧ p < (points.length : Int)) := by
  constructor
  · intro points f tol h
    exact arePointsCoplanar_oob h
  · intro points g out h f hf
    obtain ⟨_, hchk⟩ := mem_findValidFaces h hf
    obtain ⟨hcop, _⟩ := checkFace_some_true hchk
    exact (arePointsCoplanar_some_true hcop).1

/-- Witness for C7 at concrete inputs: a face slot at the point count is
rejected, and the single face emitted on the unit square is in range. -/
theorem C7_out_of_range_rejection_witness :
    arePointsCoplanar sqPoints ⟨4, 0, 1, 2⟩ coplanarTolerance = some false ∧
    (∀ p ∈ (⟨0, 1, 2, 3⟩ : QuadFace).toList, 0 ≤ p ∧ p < (sqPoints.length : Int)) :=
  ⟨C7_out_of_range_rejection.1 sqPoints ⟨4, 0, 1, 2⟩ coplanarTolerance (by decide),
    C7_out_of_range_rejection.2 sqPoints sqGraph [⟨0, 1, 2, 3⟩] (by decide)
      ⟨0, 1, 2, 3⟩ (by decide)⟩

/-- Counterexample to C7 as stated: a face whose first slot is the
negative index `-1` is below every bound, yet `arePointsCoplanar` does
not treat it as non-coplanar (`some false`); the bounds test lets it
through to an out-of-bounds element read (undefined behaviour, `none`). -/
theorem C7_negative_index_counterexample :
    arePointsCoplanar [⟨⟨0, 0, 0⟩, 1⟩] ⟨-1, 0, 0, 0⟩ coplanarTolerance = none ∧
    arePointsCoplanar [⟨⟨0, 0, 0⟩, 1⟩] ⟨-1, 0, 0, 0⟩ coplanarTolerance ≠ some false :=
  ⟨by decide, by decide⟩

/-- C1: every hexahedron emitted by `buildHexahedra` has 8 entries that
are pairwise distinct, and decomposes into two vertex-disjoint source
faces from the input list joined by exactly 4 connecting edges whose
endpoints enumerate each face's vertices exactly once (a perfect
one-to-one correspondence); the hexahedron is those 4 edges laid out
first-endpoints-then-second-endpoints. -/
theorem C1_hexahedron_validity (faces : List QuadFace) (g : AdjacencyGraph)
    (hex : Hexahedron) (hmem : hex ∈ buildHexahedra faces g) :
    hex.length = 8 ∧ hex.Nodup ∧
    ∃ f1 f2 : QuadFace, f1 ∈ faces ∧ f2 ∈ faces ∧
      (∀ p ∈ f2.toList, p ∉ f1.toList) ∧
      (connectingEdges g f1 f2).length = 4 ∧
      ((connectingEdges g f1 f2).map Prod.fst).Perm f1.toList ∧
      ((connectingEdges g f1 f2).map Prod.snd).Perm f2.toList ∧
      hex = (connectingEdges g f1 f2).map Prod.fst ++
        (connectingEdges g f1 f2).map Prod.snd := by
  obtain ⟨hcand, h8⟩ := mem_buildHexahedra hmem
  obtain ⟨f1, f2, hf1, hf2, hdisj, hlen, hfst, hsnd, hshape⟩ :=
    mem_hexCandidates hcand
  have hlen8 : hex.length = 8 := by
    rw [hshape, List.length_append, List.length_map, List.length_map, hlen]
  have hkperm : (hexKey hex).Perm hex := List.perm_insertionSort _ _
  have hnodup : hex.Nodup := by
    apply nodup_of_dedup_length_eq
    rw [← hkperm.dedup.length_eq, h8, hlen8]
  have hfstlen : ((connectingEdges g f1 f2).map Prod.fst).length = 4 := by
    rw [List.length_map, hlen]
  have hsndlen : ((connectingEdges g f1 f2).map Prod.snd).length = 4 := by
    rw [List.length_map, hlen]
  have hfstnd : ((connectingEdges g f1 f2).map Prod.fst).Nodup :=
    nodup_of_dedup_length_eq (by rw [hfst, hfstlen])
  have hsndnd : ((connectingEdges g f1 f2).map Prod.snd).Nodup :=
    nodup_of_dedup_length_eq (by rw [hsnd, hsndlen])
  have hfstsub : (connectingEdges g f1 f2).map Prod.fst ⊆ f1.toList := by
    intro x hx
    obtain ⟨⟨a, b⟩, hab, rfl⟩ := List.mem_map.1 hx
    exact (mem_connectingEdges.1 hab).1
  have hsndsub : (connectingEdges g f1 f2).map Prod.snd ⊆ f2.toList := by
    intro x hx
    obtain ⟨⟨a, b⟩, hab, rfl⟩ := List.mem_map.1 hx
    exact (mem_connectingEdges.1 hab).2.1
  have hf1len : f1.toList.length = 4 := by simp [QuadFace.toList]
  have hf2len : f2.toList.length = 4 := by simp [QuadFace.toList]
  have hfstperm : ((connectingEdges g f1 f2).map Prod.fst).Perm f1.toList :=
    (List.subperm_of_subset hfstnd hfstsub).perm_of_length_le
      (by rw [hf1len, hfstlen])
  have hsndperm : ((connectingEdges g f1 f2).map Prod.snd).Perm f2.toList :=
    (List.subperm_of_subset hsndnd hsndsub).perm_of_length_le
      (by rw [hf2len, hsndlen])
  exact ⟨hlen8, hnodup, f1, f2, hf1, hf2, hdisj, hlen, hfstperm, hsndperm, hshape⟩

/-- Witness for C1 at a concrete input: the single hexahedron built from
two quads joined by four forward edges. -/
theorem C1_hexahedron_validity_witness :
    ([0, 1, 2, 3, 4, 5, 6, 7] : Hexahedron).length = 8 ∧
    ([0, 1, 2, 3, 4, 5, 6, 7] : Hexahedron).Nodup ∧
    ∃ f1 f2 : QuadFace,
      f1 ∈ [(⟨0, 1, 2, 3⟩ : QuadFace), ⟨4, 5, 6, 7⟩] ∧
      f2 ∈ [(⟨0, 1, 2, 3⟩ : QuadFace), ⟨4, 5, 6, 7⟩] ∧
      (∀ p ∈ f2.toList, p ∉ f1.toList) ∧
      (connectingEdges wGraph f1 f2).length = 4 ∧
      ((connectingEdges wGraph f1 f2).map Prod.fst).Perm f1.toList ∧
      ((connectingEdges wGraph f1 f2).map Prod.snd).Perm f2.toList ∧
      ([0, 1, 2, 3, 4, 5, 6, 7] : Hexahedron) =
        (connectingEdges wGraph f1 f2).map Prod.fst ++
          (connectingEdges wGraph f1 f2).map Prod.snd :=
  C1_hexahedron_validity [⟨0, 1, 2, 3⟩, ⟨4, 5, 6, 7⟩] wGraph
    [0, 1, 2, 3, 4, 5, 6, 7] (by decide)

/-- C2: every face emitted by `findValidFaces` — for arbitrary points
and an arbitrary adjacency graph, self-loops and repeated neighbour
entries included — has 4 pairwise-distinct in-range indices, a scalar
triple product below the coplanarity tolerance `1/1000` in absolute
value, and both squared diagonals above `1.01` times the largest squared
edge. -/
theorem C2_face_validity (points : List MeshPoint) (g : AdjacencyGraph)
    (out : List QuadFace) (h : findValidFaces points g = some out) :
    ∀ f ∈ out,
      f.toList.Nodup ∧
      (∀ p ∈ f.toList, 0 ≤ p ∧ p < (points.length : Int)) ∧
      ratAbs (tripleProduct points f) < coplanarTolerance ∧
      maxEdgeSq points f * (101/100) < diag02Sq points f ∧
      maxEdgeSq points f * (101/100) < diag13Sq points f := by
  intro f hf
  obtain ⟨hcand, hchk⟩ := mem_findValidFaces h hf
  obtain ⟨hcop, hdiag⟩ := checkFace_some_true hchk
  obtain ⟨hbounds, habs⟩ := arePointsCoplanar_some_true hcop
  obtain ⟨hd1, hd2⟩ := diagonalCheck_true hdiag
  exact ⟨accepted_face_nodup hcand hdiag, hbounds, habs, hd1, hd2⟩

/-- Witness for C2 at the unit square: the single emitted face. -/
theorem C2_face_validity_witness :
    (⟨0, 1, 2, 3⟩ : QuadFace).toList.Nodup ∧
    (∀ p ∈ (⟨0, 1, 2, 3⟩ : QuadFace).toList, 0 ≤ p ∧ p < (sqPoints.length : Int)) ∧
    ratAbs (tripleProduct sqPoints ⟨0, 1, 2, 3⟩) < coplanarTolerance ∧
    maxEdgeSq sqPoints ⟨0, 1, 2, 3⟩ * (101/100) < diag02Sq sqPoints ⟨0, 1, 2, 3⟩ ∧
    maxEdgeSq sqPoints ⟨0, 1, 2, 3⟩ * (101/100) < diag13Sq sqPoints ⟨0, 1, 2, 3⟩ :=
  C2_face_validity sqPoints sqGraph [⟨0, 1, 2, 3⟩] (by decide) ⟨0, 1, 2, 3⟩
    (by decide)

/-- Second components of the distance list are the candidate indices. -/
theorem map_snd_distList (points : List MeshPoint) (i : Nat) :
    (distList points i).map Prod.snd =
      ((List.range points.length).filter (fun j => j ≠ i)).map
        (fun j => Int.ofNat j) := by
  unfold distList
  rw [List.map_map]
  rfl

/-- Second components of the sorted distance list are duplicate-free. -/
theorem nodup_mapsnd_sorted (points : List MeshPoint) (i : Nat) :
    ((sortedDistances points i).map Prod.snd).Nodup := by
  have h0 : ((distList points i).map Prod.snd).Nodup := by
    rw [map_snd_distList]
    exact ((List.nodup_range _).filter _).map (fun a b h => Int.ofNat.inj h)
  exact (((List.perm_insertionSort distLE (distList points i)).map
    Prod.snd).nodup_iff).2 h0

/-- C4: the neighbour list assigned to point `i` has exactly
`min(required_neighbors[i], n-1)` entries, for any non-negative required
count — in particular a count above `n-1` is clamped with no error. -/
theorem C4_degree_bound (points : List MeshPoint) (i : Nat)
    (hi : i < points.length)
    (hreq : 0 ≤ (points.getD i default).required_neighbors) :
    ∃ nb : List Int,
      List.lookup (Int.ofNat i) (buildAdjacencyGraph points) = some nb ∧
      nb.length = min (points.getD i default).required_neighbors.toNat
        (points.length - 1) := by
  have hie : points.isEmpty = false := by
    cases points with
    | nil => simp at hi
    | cons a l => rfl
  refine ⟨neighborsOf points i, ?_, ?_⟩
  · unfold buildAdjacencyGraph
    rw [if_neg (by simp [hie])]
    exact lookup_range_map _ _ i hi
  · unfold neighborsOf
    have hnd : (((sortedDistances points i).take
        (points.getD i default).required_neighbors.toNat).map Prod.snd).Nodup := by
      rw [List.map_take]
      exact (nodup_mapsnd_sorted points i).sublist (List.take_sublist _ _)
    rw [foldl_setInsert_of_nodup _ [] hnd (by intro x _ hx; cases hx),
      List.nil_append, List.length_map, List.length_take]
    congr 1
    unfold sortedDistances
    rw [List.length_insertionSort]
    unfold distList
    rw [List.length_map,
      length_filter_ne_of_nodup _ i (List.nodup_range _) (List.mem_range.2 hi),
      List.length_range]

/-- Witness for C4: the collinear point with required count `5` among 3
points is clamped to 2 neighbours. -/
theorem C4_degree_bound_witness :
    ∃ nb : List Int,
      List.lookup (Int.ofNat 0) (buildAdjacencyGraph wPoints) = some nb ∧
      nb.length = min (wPoints.getD 0 default).required_neighbors.toNat
        (wPoints.length - 1) :=
  C4_degree_bound wPoints 0 (by decide) (by decide)

/-- C9: the graph built over a non-empty point sequence has exactly the
keys `0 .. n-1` in order, and every stored neighbour index is in range
and differs from its key. -/
theorem C9_graph_well_formed (points : List MeshPoint) (hne : points ≠ []) :
    (buildAdjacencyGraph points).map Prod.fst =
      (List.range points.length).map (fun j => Int.ofNat j) ∧
    ∀ pr ∈ buildAdjacencyGraph points, ∀ j ∈ pr.2,
      0 ≤ j ∧ j < (points.length : Int) ∧ j ≠ pr.1 := by
  have hie : points.isEmpty = false := by
    cases points with
    | nil => exact absurd rfl hne
    | cons a l => rfl
  constructor
  · unfold buildAdjacencyGraph
    rw [if_neg (by simp [hie]), List.map_map]
    rfl
  · intro pr hpr j hj
    unfold buildAdjacencyGraph at hpr
    rw [if_neg (by simp [hie])] at hpr
    obtain ⟨i, hi, rfl⟩ := List.mem_map.1 hpr
    replace hj : j ∈ List.foldl setInsert []
        (((sortedDistances points i).take
          (points.getD i default).required_neighbors.toNat).map Prod.snd) := hj
    rcases mem_of_mem_foldl_setInsert _ [] j hj with hc | hc
    · cases hc
    · rw [List.map_take] at hc
      have hmem := List.take_subset _ _ hc
      have hmem2 : j ∈ (distList points i).map Prod.snd :=
        (((List.perm_insertionSort distLE (distList points i)).map
          Prod.snd).mem_iff).1 hmem
      rw [map_snd_distList] at hmem2
      obtain ⟨jn, hjn, rfl⟩ := List.mem_map.1 hmem2
      have hjr := List.mem_filter.1 hjn
      have hjlt : jn < points.length := List.mem_range.1 hjr.1
      have hjne : jn ≠ i := of_decide_eq_true hjr.2
      refine ⟨Int.ofNat_zero_le jn, Int.ofNat_lt.2 hjlt, ?_⟩
      intro hcon
      exact hjne (Int.ofNat.inj hcon)

/-- Two distinct points on the x-axis, one required neighbour each. -/
def twoPoints : List MeshPoint := [⟨⟨0, 0, 0⟩, 1⟩, ⟨⟨1, 0, 0⟩, 1⟩]

/-- Witness for C9 on a 2-point sequence. -/
theorem C9_graph_well_formed_witness :
    (buildAdjacencyGraph twoPoints).map Prod.fst =
      (List.range twoPoints.length).map (fun j => Int.ofNat j) ∧
    ∀ pr ∈ buildAdjacencyGraph twoPoints, ∀ j ∈ pr.2,
      0 ≤ j ∧ j < (twoPoints.length : Int) ∧ j ≠ pr.1 :=
  C9_graph_well_formed twoPoints (by decide)

/-- C10: a point whose required neighbour count is zero or negative gets
an empty neighbour set, with no error. -/
theorem C10_nonpositive_required (points : List MeshPoint) (i : Nat)
    (hi : i < points.length)
    (hreq : (points.getD i default).required_neighbors ≤ 0) :
    List.lookup (Int.ofNat i) (buildAdjacencyGraph points) = some [] := by
  have hie : points.isEmpty = false := by
    cases points with
    | nil => simp at hi
    | cons a l => rfl
  unfold buildAdjacencyGraph
  rw [if_neg (by simp [hie])]
  rw [lookup_range_map (fun j => neighborsOf points j) points.length i hi]
  congr 1
  unfold neighborsOf
  rw [Int.toNat_of_nonpos hreq]
  simp

/-- Witness for C10: the point with required count `-1` gets no
neighbours. -/
theorem C10_nonpositive_required_witness :
    List.lookup (Int.ofNat 2) (buildAdjacencyGraph wPoints) = some [] :=
  C10_nonpositive_required wPoints 2 (by decide) (by decide)

set_option maxRecDepth 100000 in
/-- Counterexample to C3 as stated: on the 16-point layout actually
loaded by the coordinator (first corner at `(-0.2, 0, 0)`, four layers at
`z = 0, 1, 2, 3`), the pipeline produces 3 hexahedra, not exactly 2. -/
theorem C3_two_hexahedra_counterexample :
    (findValidFaces m_points (buildAdjacencyGraph m_points)).map
      (fun fs => (buildHexahedra fs (buildAdjacencyGraph m_points)).length) =
      some 3 ∧
    (findValidFaces m_points (buildAdjacencyGraph m_points)).map
      (fun fs => (buildHexahedra fs (buildAdjacencyGraph m_points)).length) ≠
      some 2 := by
  have h : (findValidFaces m_points (buildAdjacencyGraph m_points)).map
      (fun fs => (buildHexahedra fs (buildAdjacencyGraph m_points)).length) =
      some 3 := by decide
  exact ⟨h, by rw [h]; decide⟩

set_option maxRecDepth 100000 in
/-- C3 (amended): on the coordinator's 16-point layout the three stages
produce 15 valid quad faces (at least 11) and exactly 3 hexahedra, whose
vertex sets are the three stacked cells `{0..7}`, `{4..11}` and
`{8..15}`. -/
theorem C3_reference_layout_pipeline :
    (findValidFaces m_points (buildAdjacencyGraph m_points)).map
      (fun fs => (fs.length,
        (buildHexahedra fs (buildAdjacencyGraph m_points)).map hexKey)) =
      some (15,
        [[0, 1, 2, 3, 4, 5, 6, 7],
         [4, 5, 6, 7, 8, 9, 10, 11],
         [8, 9, 10, 11, 12, 13, 14, 15]]) := by
  decide
